import Mathlib

/-!
# Verification of the gh-copilot streaming decode-and-render pipeline

Shallow embedding of the core pipeline of the `markis/gh-copilot` repository:
the stream decoder (`internal/stream`, `Parser.Process`), the block-aware
segmenter and terminal renderer (`internal/render`, `TerminalRenderer`), and
the orchestration of the two over the handoff channel.

Go byte strings are modelled as `List Char` (one `Char` per byte; all inputs
used in concrete evaluations are ASCII, where Go's byte indexing and the
character indexing used here coincide).
-/

namespace GhCopilot

abbrev Str := List Char

/-- Conversion from a Lean string literal to the `List Char` model of a Go string. -/
def strOf (x : String) : Str := x.data

/-- Models Go `unicode.IsSpace` restricted to the ASCII whitespace characters
(space, tab, newline, vertical tab, form feed, carriage return); the non-ASCII
space code points accepted by Go do not occur in any input considered here. -/
def isSpaceChar (c : Char) : Bool :=
  c = ' ' || c = '\t' || c = '\n' || c = Char.ofNat 11 || c = Char.ofNat 12 || c = '\r'

/-- Models Go `strings.TrimSpace`: drop whitespace from both ends. -/
def trimSpace (s : Str) : Str :=
  ((s.dropWhile isSpaceChar).reverse.dropWhile isSpaceChar).reverse

/-- Models Go `strings.Split(content, "\n")`: split at every newline; the empty
string yields `[""]`, a trailing newline yields a trailing empty element. -/
def splitNl : Str → List Str
  | [] => [[]]
  | c :: rest =>
    if c = '\n' then [] :: splitNl rest
    else
      match splitNl rest with
      | [] => [[c]]
      | x :: xs => (c :: x) :: xs

/-- Models Go `strings.Contains(hay, pat)`: `pat` occurs as a contiguous
substring of `hay`. -/
def strContains : Str → Str → Bool
  | [], pat => pat.isEmpty
  | c :: t, pat => pat.isPrefixOf (c :: t) || strContains t pat

/-- Models Go `strings.HasPrefix(s, pat)`. -/
def strStarts (s pat : Str) : Bool := pat.isPrefixOf s

/-! ## JSON value model and parser

Models the part of Go `encoding/json` exercised by the decoder: a JSON
syntax tree, a parser for the textual syntax (`json.Unmarshal`'s syntax
check), and the field-merging decode of a JSON value into the decoder's
reused `ChatResponse` variable.
-/

inductive Json where
  | null
  | boolean (b : Bool)
  | number (lexeme : Str)
  | string (s : Str)
  | array (elems : List Json)
  | object (fields : List (Str × Json))

/-- JSON insignificant whitespace (RFC 8259: space, tab, newline, return). -/
def jsonWs (c : Char) : Bool := c = ' ' || c = '\t' || c = '\n' || c = '\r'

def skipWs (s : Str) : Str := s.dropWhile jsonWs

def hexVal (c : Char) : Option Nat :=
  if '0' ≤ c ∧ c ≤ '9' then some (c.toNat - '0'.toNat)
  else if 'a' ≤ c ∧ c ≤ 'f' then some (c.toNat - 'a'.toNat + 10)
  else if 'A' ≤ c ∧ c ≤ 'F' then some (c.toNat - 'A'.toNat + 10)
  else none

/-- Parse the body of a JSON string literal (after the opening quote),
decoding escape sequences as `encoding/json` does. -/
def parseStrBody : Nat → Str → Option (Str × Str)
  | 0, _ => none
  | _ + 1, [] => none
  | fuel + 1, c :: rest =>
    if c = '"' then some ([], rest)
    else if c = '\\' then
      match rest with
      | [] => none
      | e :: rest2 =>
        let dec : Option (Char × Str) :=
          if e = '"' then some ('"', rest2)
          else if e = '\\' then some ('\\', rest2)
          else if e = '/' then some ('/', rest2)
          else if e = 'b' then some (Char.ofNat 8, rest2)
          else if e = 'f' then some (Char.ofNat 12, rest2)
          else if e = 'n' then some ('\n', rest2)
          else if e = 'r' then some ('\r', rest2)
          else if e = 't' then some ('\t', rest2)
          else if e = 'u' then
            match rest2 with
            | h1 :: h2 :: h3 :: h4 :: rest3 =>
              match hexVal h1, hexVal h2, hexVal h3, hexVal h4 with
              | some a, some b, some c2, some d =>
                some (Char.ofNat (((a * 16 + b) * 16 + c2) * 16 + d), rest3)
              | _, _, _, _ => none
            | _ => none
          else none
        match dec with
        | none => none
        | some (ch, rest3) =>
          match parseStrBody fuel rest3 with
          | none => none
          | some (tail, rest4) => some (ch :: tail, rest4)
    else if c.toNat < 32 then none
    else
      match parseStrBody fuel rest with
      | none => none
      | some (tail, rest2) => some (c :: tail, rest2)

def isDigit (c : Char) : Bool := '0' ≤ c ∧ c ≤ '9'

/-- Parse a JSON number lexeme (sign, integer part without leading zeros,
optional fraction and exponent); the lexeme is kept verbatim. -/
def parseNum (s : Str) : Option (Str × Str) :=
  let (sign, s1) :=
    match s with
    | '-' :: rest => (['-'], rest)
    | _ => (([] : Str), s)
  match s1 with
  | [] => none
  | d :: rest =>
    if d = '0' then
      let (frac, s2) := readFracExp rest
      some (sign ++ ['0'] ++ frac, s2)
    else if isDigit d then
      let digits := rest.takeWhile isDigit
      let s2 := rest.dropWhile isDigit
      let (frac, s3) := readFracExp s2
      some (sign ++ [d] ++ digits ++ frac, s3)
    else none
where
  /-- Read an optional fraction and exponent part, leniently. -/
  readFracExp (s : Str) : Str × Str :=
    let (fr, s1) :=
      match s with
      | '.' :: rest => ('.' :: rest.takeWhile isDigit, rest.dropWhile isDigit)
      | _ => (([] : Str), s)
    match s1 with
    | 'e' :: rest =>
      let (ex, s2) := expTail rest
      (fr ++ 'e' :: ex, s2)
    | 'E' :: rest =>
      let (ex, s2) := expTail rest
      (fr ++ 'E' :: ex, s2)
    | _ => (fr, s1)
  expTail (s : Str) : Str × Str :=
    match s with
    | '+' :: rest => ('+' :: rest.takeWhile isDigit, rest.dropWhile isDigit)
    | '-' :: rest => ('-' :: rest.takeWhile isDigit, rest.dropWhile isDigit)
    | _ => (s.takeWhile isDigit, s.dropWhile isDigit)

mutual

/-- Recursive-descent parser for a JSON value; `fuel` bounds the recursion
depth and is instantiated with the input length plus one. -/
def parseValue : Nat → Str → Option (Json × Str)
  | 0, _ => none
  | fuel + 1, input =>
    match skipWs input with
    | [] => none
    | c :: rest =>
      if c = 'n' then
        if strStarts rest (strOf "ull") then some (Json.null, rest.drop 3) else none
      else if c = 't' then
        if strStarts rest (strOf "rue") then some (Json.boolean true, rest.drop 3) else none
      else if c = 'f' then
        if strStarts rest (strOf "alse") then some (Json.boolean false, rest.drop 4) else none
      else if c = '"' then
        match parseStrBody (rest.length + 1) rest with
        | none => none
        | some (s, rest2) => some (Json.string s, rest2)
      else if c = '[' then
        match skipWs rest with
        | ']' :: rest2 => some (Json.array [], rest2)
        | _ =>
          match parseElems fuel rest with
          | none => none
          | some (elems, rest2) => some (Json.array elems, rest2)
      else if c = '{' then
        match skipWs rest with
        | '}' :: rest2 => some (Json.object [], rest2)
        | _ =>
          match parseMembers fuel rest with
          | none => none
          | some (fields, rest2) => some (Json.object fields, rest2)
      else
        match parseNum (c :: rest) with
        | none => none
        | some (lex, rest2) => some (Json.number lex, rest2)

/-- Parse one or more comma-separated array elements up to the closing `]`. -/
def parseElems : Nat → Str → Option (List Json × Str)
  | 0, _ => none
  | fuel + 1, input =>
    match parseValue fuel input with
    | none => none
    | some (v, rest) =>
      match skipWs rest with
      | ',' :: rest2 =>
        match parseElems fuel rest2 with
        | none => none
        | some (vs, rest3) => some (v :: vs, rest3)
      | ']' :: rest2 => some ([v], rest2)
      | _ => none

/-- Parse one or more comma-separated object members up to the closing brace. -/
def parseMembers : Nat → Str → Option (List (Str × Json) × Str)
  | 0, _ => none
  | fuel + 1, input =>
    match skipWs input with
    | '"' :: rest =>
      match parseStrBody (rest.length + 1) rest with
      | none => none
      | some (key, rest2) =>
        match skipWs rest2 with
        | ':' :: rest3 =>
          match parseValue fuel rest3 with
          | none => none
          | some (v, rest4) =>
            match skipWs rest4 with
            | ',' :: rest5 =>
              match parseMembers fuel rest5 with
              | none => none
              | some (kvs, rest6) => some ((key, v) :: kvs, rest6)
            | '}' :: rest5 => some ([(key, v)], rest5)
            | _ => none
        | _ => none
    | _ => none

end

/-- Models the syntax check of `json.Unmarshal(data, ...)`: parse one JSON
value and require only whitespace after it. -/
def parseJson (data : Str) : Option Json :=
  match parseValue (data.length + 1) data with
  | none => none
  | some (j, rest) => if skipWs rest = [] then some j else none

/-! ## The ChatResponse decode target

Embedding of `ChatResponse` from `internal/stream` (the struct the decoder
unmarshals each frame into):

```go
type ChatResponse struct {
    Choices []struct {
        Delta   struct { Content string } `json:"delta"`
        Message struct { Content string } `json:"message"`
    } `json:"choices"`
}
```

The inner anonymous structs are flattened to their single `Content` field.
The decode functions below model `encoding/json`'s documented merge
behaviour, which matters because `Parser.Process` declares `var chunk
ChatResponse` once and reuses it for every frame:
- object keys absent from the JSON leave the corresponding Go field
  untouched;
- a JSON `null` leaves a string field untouched and sets a slice to nil,
  producing no error;
- decoding a JSON array into a slice reuses the existing backing elements
  index by index (absent keys of an element keep the reused element's old
  value); extra old elements are dropped;
- a JSON value of the wrong shape for the target leaves the target
  untouched and flags an error, while the rest decodes best-effort.
Go's case-insensitive field-name fallback is modelled by ASCII-lowercasing
the key. -/

structure Choice where
  deltaContent : Str := []
  messageContent : Str := []
deriving DecidableEq

structure ChatResponse where
  choices : List Choice := []
deriving DecidableEq

def chatInit : ChatResponse := {}

/-- Models Go's (ASCII) case-insensitive JSON field-name match target. -/
def foldKey (k : Str) : Str := k.map Char.toLower

/-- Decode a JSON value into a Go `string` field holding `old`. -/
def decodeStr (old : Str) : Json → Str × Bool
  | Json.string s => (s, true)
  | Json.null => (old, true)
  | _ => (old, false)

/-- Decode a JSON value into a `struct { Content string }` whose current
`Content` is `old`; returns the new `Content` and a success flag. -/
def decodeContentStruct (old : Str) : Json → Str × Bool
  | Json.object fields =>
    fields.foldl
      (fun acc kv =>
        if foldKey kv.1 = strOf "content" then
          let (s, ok) := decodeStr acc.1 kv.2
          (s, acc.2 && ok)
        else acc)
      (old, true)
  | Json.null => (old, true)
  | _ => (old, false)

/-- Decode a JSON value into one `Choice`, merging into `old`. -/
def decodeChoice (old : Choice) : Json → Choice × Bool
  | Json.object fields =>
    fields.foldl
      (fun acc kv =>
        if foldKey kv.1 = strOf "delta" then
          let (s, ok) := decodeContentStruct acc.1.deltaContent kv.2
          ({ acc.1 with deltaContent := s }, acc.2 && ok)
        else if foldKey kv.1 = strOf "message" then
          let (s, ok) := decodeContentStruct acc.1.messageContent kv.2
          ({ acc.1 with messageContent := s }, acc.2 && ok)
        else acc)
      (old, true)
  | Json.null => (old, true)
  | _ => (old, false)

/-- Decode a JSON array into the `Choices` slice: element `i` merges into the
previous slice's element `i` when one exists (Go reuses the backing array),
else into a zero `Choice`. -/
def decodeChoiceList : List Choice → List Json → List Choice × Bool
  | _, [] => ([], true)
  | old, j :: js =>
    let (c, ok1) := decodeChoice (old.headD {}) j
    let (cs, ok2) := decodeChoiceList old.tail js
    (c :: cs, ok1 && ok2)

/-- Decode a JSON value into the whole `ChatResponse`, merging into `old`. -/
def decodeChatResponse (old : ChatResponse) : Json → ChatResponse × Bool
  | Json.object fields =>
    fields.foldl
      (fun acc kv =>
        if foldKey kv.1 = strOf "choices" then
          match kv.2 with
          | Json.array elems =>
            let (cs, ok) := decodeChoiceList acc.1.choices elems
            (ChatResponse.mk cs, acc.2 && ok)
          | Json.null => (ChatResponse.mk [], acc.2)
          | _ => (acc.1, false)
        else acc)
      (old, true)
  | Json.null => (old, true)
  | _ => (old, false)

/-! ## StreamDecoder (`Parser.Process`, current generation)

Embedding of the per-line loop body of `Parser.Process`
(`internal/stream`):

```go
line := scanner.Text()
if line == "" || line == "data: [DONE]" { continue }
data := strings.TrimPrefix(line, "data: ")
if err := json.Unmarshal([]byte(data), &chunk); err != nil {
    p.chunks <- Chunk{Error: err}
    continue
}
if len(chunk.Choices) > 0 {
    content := chunk.Choices[0].Delta.Content
    if content == "" { content = chunk.Choices[0].Message.Content }
    if content != "" { p.chunks <- Chunk{Content: content} }
}
```

The scanner is abstracted to the list of lines it yields; `chunk` is the
reused `ChatResponse` threaded through as explicit state. Errors carried by
Chunks are classified by kind. -/

inductive GoError where
  | jsonErr
  | readErr
  | canceled
deriving DecidableEq

/-- Embedding of the `Chunk` struct of `internal/stream`. -/
structure Chunk where
  Content : Str := []
  Done : Bool := false
  Error : Option GoError := none
deriving DecidableEq

def dataDoneStr : Str := strOf "data: [DONE]"

/-- Models `strings.TrimPrefix(line, "data: ")`. -/
def trimData (line : Str) : Str :=
  if strStarts line (strOf "data: ") then line.drop 6 else line

/-- The Chunk emission the loop body performs for the current (post-decode)
`Choices` slice. -/
def emitFor (choices : List Choice) : List Chunk :=
  match choices with
  | [] => []
  | c :: _ =>
    let content := if c.deltaContent = [] then c.messageContent else c.deltaContent
    if content = [] then [] else [{ Content := content }]

/-- One iteration of the decoder loop on a scanned line: returns the new
decode-target state and the Chunks sent into the handoff channel. -/
def processLine (st : ChatResponse) (line : Str) : ChatResponse × List Chunk :=
  if line = [] ∨ line = dataDoneStr then (st, [])
  else
    match parseJson (trimData line) with
    | none => (st, [{ Error := some GoError.jsonErr }])
    | some j =>
      let (st2, ok) := decodeChatResponse st j
      if ok then (st2, emitFor st2.choices)
      else (st2, [{ Error := some GoError.jsonErr }])

/-- The decoder's emissions over a list of scanned lines, threading the
reused `ChatResponse` state. -/
def processLines (st : ChatResponse) : List Str → List Chunk
  | [] => []
  | l :: ls =>
    let (st2, cs) := processLine st l
    cs ++ processLines st2 ls

/-- How a run of `Parser.Process` ends: end of stream (`scanner.Scan()`
returns false with a nil error), a fatal read error, or the cancellation
signal observed before scanning line `k`. -/
inductive ExitMode where
  | eof
  | fatalRead
  | canceled (k : Nat)
deriving DecidableEq

/-- All Chunks `Parser.Process` sends into the handoff channel for a given
line stream and exit mode. -/
def decoderChunks (lines : List Str) : ExitMode → List Chunk
  | ExitMode.eof => processLines chatInit lines
  | ExitMode.fatalRead => processLines chatInit lines ++ [{ Error := some GoError.readErr }]
  | ExitMode.canceled k =>
    processLines chatInit (lines.take k) ++ [{ Error := some GoError.canceled }]

/-- Events on the handoff channel as seen from the producer side. -/
inductive QEvent where
  | send (c : Chunk)
  | close
deriving DecidableEq

/-- The full event trace of `Parser.Process` on the handoff channel: every
send, followed by the `defer close(p.chunks)` that runs when the function
returns. -/
def decoderTrace (lines : List Str) (m : ExitMode) : List QEvent :=
  (decoderChunks lines m).map QEvent.send ++ [QEvent.close]

/-! ## BlockAwareSegmenter (`TerminalRenderer.findMarkdownBreakPoint`)

Line-by-line transcription of `findMarkdownBreakPoint` from
`internal/render` (current generation). The Go loop keeps `position` at the
byte offset of the start of the line being scanned (it is advanced by
`len(line) + 1` at the end of each iteration). -/

/-- The loop state of `findMarkdownBreakPoint`. -/
structure ScanState where
  inCodeBlock : Bool := false
  inList : Bool := false
  inTable : Bool := false
  inBlockquote : Bool := false
  lastBreakPosition : Int := -1
  position : Int := 0
deriving DecidableEq

/-- One iteration of the scanning loop. `isFirst` is `i == 0`; `next` is
`lines[i+1]` when it exists (`none` on the last line). The sequential
rebindings of `lastBreakPosition` mirror the order of the checks in the Go
source: code fence toggle, table, blockquote, list, bare blank line,
heading. -/
def scanLine (st : ScanState) (line : Str) (isFirst : Bool) (next : Option Str) : ScanState :=
  let lineLength : Int := (line.length : Int) + 1
  let trimmed := trimSpace line
  let inCodeBlock := if strStarts trimmed (strOf "```") then !st.inCodeBlock else st.inCodeBlock
  if inCodeBlock then
    { st with inCodeBlock := inCodeBlock, position := st.position + lineLength }
  else
    let break0 := st.lastBreakPosition
    let (inTable, break1) :=
      if strStarts trimmed (strOf "|") && strContains trimmed (strOf "|") then (true, break0)
      else if st.inTable && trimmed.isEmpty then (false, st.position)
      else (st.inTable, break0)
    let (inBlockquote, break2) :=
      if strStarts trimmed (strOf ">") then (true, break1)
      else if st.inBlockquote && trimmed.isEmpty then (false, st.position)
      else (st.inBlockquote, break1)
    let listMarker :=
      strStarts trimmed (strOf "- ") || strStarts trimmed (strOf "* ") ||
      strStarts trimmed (strOf "+ ") ||
      (match trimmed with
       | [] => false
       | c :: _ => strContains (strOf "0123456789") [c] && strContains trimmed (strOf ". "))
    let (inList, break3) :=
      if listMarker then (true, break2)
      else if st.inList && trimmed.isEmpty then (false, st.position)
      else (st.inList, break2)
    let currentInBlock := inCodeBlock || inTable || inBlockquote || inList
    let break4 :=
      if !currentInBlock && trimmed.isEmpty && !isFirst &&
         (match next with
          | some nl => !(trimSpace nl).isEmpty
          | none => true) then st.position
      else break3
    let break5 :=
      if !currentInBlock && strStarts trimmed (strOf "#") then
        if st.position > 0 then st.position - lineLength else break4
      else break4
    { inCodeBlock := inCodeBlock, inList := inList, inTable := inTable,
      inBlockquote := inBlockquote, lastBreakPosition := break5,
      position := st.position + lineLength }

/-- The scanning loop over the remaining lines. -/
def scanLoop : ScanState → Bool → List Str → ScanState
  | st, _, [] => st
  | st, isFirst, line :: rest =>
    scanLoop (scanLine st line isFirst rest.head?) false rest

/-- Embedding of `findMarkdownBreakPoint(content)`: split on newlines, scan,
return the last recorded break position (or -1). -/
def findMarkdownBreakPoint (content : Str) : Int :=
  (scanLoop {} true (splitNl content)).lastBreakPosition

/-! ## TerminalRenderer (`internal/render`, current generation)

The renderer's observable output is modelled as a list of print events:
`Out.print s` for `fmt.Print(s)` and `Out.println s` for `fmt.Println(s)`
(so `fmt.Println()` is `Out.println []`). The external glamour markdown
capability is a parameter `md`; plain mode never calls it. -/

inductive Out where
  | print (s : Str)
  | println (s : Str)
deriving DecidableEq

/-- Renderer configuration: the `plainText` flag and the injected external
markdown-rendering capability (`glamour.TermRenderer.Render`). -/
structure Cfg where
  plainText : Bool
  md : Str → Except Unit Str

/-- The accumulation buffer (`t.buffer`), exclusively owned by the renderer. -/
structure RendererState where
  buffer : Str := []
deriving DecidableEq

def rInit : RendererState := {}

/-- Ways `TerminalRenderer.Render` can terminate with a non-nil error. -/
inductive Failure where
  | streamError (e : GoError)
  | processError
  | remainingError
  | ctxError (e : GoError)
deriving DecidableEq

/-- Embedding of `renderContent`: the print events it emits and whether it
succeeded. In styled mode the blank line before a heading is printed before
the external renderer is invoked, so it is emitted even when that call then
fails. -/
def renderContent (cfg : Cfg) (content : Str) : List Out × Bool :=
  if cfg.plainText then ([Out.print content], true)
  else
    let c := trimSpace content
    let pre : List Out := if strStarts c (strOf "#") then [Out.println []] else []
    match cfg.md c with
    | Except.error _ => (pre, false)
    | Except.ok mdContent => (pre ++ [Out.println (trimSpace mdContent)], true)

/-- Embedding of `processChunk`: append the content to the buffer, ask the
segmenter for a break point, and flush the prefix when one exists
(`idx > -1`). On a render failure the error propagates before the buffer is
reset. -/
def processChunkR (cfg : Cfg) (st : RendererState) (content : Str) :
    RendererState × List Out × Bool :=
  let buf := st.buffer ++ content
  let idx := findMarkdownBreakPoint buf
  if idx > -1 then
    let (outs, ok) := renderContent cfg (buf.take idx.toNat)
    if ok then ({ buffer := buf.drop idx.toNat }, outs, true)
    else ({ buffer := buf }, outs, false)
  else ({ buffer := buf }, [], true)

/-- The consumption loop of `Render` up to queue closure: process Chunks in
order, stopping at the first error Chunk (`stream error`) or render failure
(`failed to process chunk`). Returns the print events together with either
the terminating failure or the state at queue closure. -/
def consumeChunks (cfg : Cfg) (st : RendererState) :
    List Chunk → List Out × Except Failure RendererState
  | [] => ([], Except.ok st)
  | c :: cs =>
    match c.Error with
    | some e => ([], Except.error (Failure.streamError e))
    | none =>
      let (st2, outs, ok) := processChunkR cfg st c.Content
      if ok then
        let (outs2, r) := consumeChunks cfg st2 cs
        (outs ++ outs2, r)
      else (outs, Except.error Failure.processError)

/-- Embedding of `renderRemaining`: flush the buffer when non-empty, then
`fmt.Println()`; a render failure surfaces before the final println. -/
def renderRemaining (cfg : Cfg) (st : RendererState) : List Out × Option Failure :=
  if st.buffer = [] then ([Out.println []], none)
  else
    let (outs, ok) := renderContent cfg st.buffer
    if ok then (outs ++ [Out.println []], none)
    else (outs, some Failure.remainingError)

/-- Embedding of `Render` over the whole Chunk sequence of a run in which the
cancellation signal is never the selected case: consume until closure, then
render the remainder. Returns all print events and the terminating result
(`none` = nil error). -/
def renderFull (cfg : Cfg) (chunks : List Chunk) : List Out × Option Failure :=
  match consumeChunks cfg rInit chunks with
  | (outs, Except.error f) => (outs, some f)
  | (outs, Except.ok st) =>
    let (outs2, r) := renderRemaining cfg st
    (outs ++ outs2, r)

/-- Embedding of a `Render` run in which the `select` observes `ctx.Done()`
after `j` Chunks have been consumed: the loop returns `t.ctx.Err()` at that
point, emitting nothing further. -/
def renderOnCancel (cfg : Cfg) (chunks : List Chunk) (j : Nat) : List Out × Option Failure :=
  match consumeChunks cfg rInit (chunks.take j) with
  | (outs, Except.error f) => (outs, some f)
  | (outs, Except.ok _) => (outs, some (Failure.ctxError GoError.canceled))

/-- The payloads of the `fmt.Print` events among the renderer's output: in
plain mode these are exactly the flushed segments. -/
def printedSegs : List Out → List Str
  | [] => []
  | Out.print s :: rest => s :: printedSegs rest
  | Out.println _ :: rest => printedSegs rest

/-- A Chunk carrying an error. -/
def isErrChunk (c : Chunk) : Bool := !(c.Error == none)

/-- A Chunk carrying the cancellation cause. -/
def isCancelChunk (c : Chunk) : Bool := c.Error == some GoError.canceled

/-- A Chunk sequence with no error Chunk. -/
def errorFree (chunks : List Chunk) : Bool := chunks.all (fun c => c.Error == none)

/-- The events the final `renderRemaining` flush emits for a closing buffer
`b` (empty when there is nothing left). -/
def flushRemaining (cfg : Cfg) (b : Str) : List Out :=
  if b = [] then [] else (renderContent cfg b).1

/-! ## Concrete inputs used in evaluations -/

/-- A markdown-capability stand-in that renders every string to itself. -/
def mdId : Str → Except Unit Str := fun x => Except.ok x

/-- A plain-mode renderer configuration. -/
def plainCfg : Cfg := { plainText := true, md := mdId }

/-- A valid frame whose delta content is `A`. -/
def frameA : Str := strOf "data: \x7b\"choices\":[\x7b\"delta\":\x7b\"content\":\"A\"\x7d\x7d]\x7d"

/-- A valid frame whose delta content is `B`. -/
def frameB : Str := strOf "data: \x7b\"choices\":[\x7b\"delta\":\x7b\"content\":\"B\"\x7d\x7d]\x7d"

/-- A frame whose payload is not parsable as JSON. -/
def frameBad : Str := strOf "data: \x7boops"

/-- A frame whose payload is the valid JSON object with no members. -/
def frameEmptyObj : Str := strOf "data: \x7b\x7d"

/-- A valid frame whose delta content is `hi`. -/
def frameHi : Str := strOf "data: \x7b\"choices\":[\x7b\"delta\":\x7b\"content\":\"hi\"\x7d\x7d]\x7d"

/-- The JSON syntax tree of `frameHi`'s payload. -/
def jsonHi : Json :=
  Json.object [(strOf "choices",
    Json.array [Json.object [(strOf "delta",
      Json.object [(strOf "content", Json.string (strOf "hi"))])]])]

/-! ## Helper lemmas -/

theorem printedSegs_append (a b : List Out) :
    printedSegs (a ++ b) = printedSegs a ++ printedSegs b := by
  induction a with
  | nil => rfl
  | cons o rest ih => cases o <;> simp [printedSegs, ih]

/-- Consumption distributes over appending Chunk sequences when the first
part consumes without failure. -/
theorem consume_append (cfg : Cfg) (rest : List Chunk) (pre : List Chunk) :
    ∀ st outs st2, consumeChunks cfg st pre = (outs, Except.ok st2) →
      consumeChunks cfg st (pre ++ rest) =
        (outs ++ (consumeChunks cfg st2 rest).1, (consumeChunks cfg st2 rest).2) := by
  induction pre with
  | nil =>
    intro st outs st2 h
    simp only [consumeChunks, Prod.mk.injEq] at h
    obtain ⟨h1, h2⟩ := h
    cases h1
    cases (Except.ok.injEq .. ▸ h2 : st = st2)
    simp
  | cons c cs ih =>
    intro st outs st2 h
    cases hce : c.Error with
    | some e => simp [consumeChunks, hce] at h
    | none =>
      obtain ⟨st3, pouts, pok, hpc⟩ : ∃ a b d2, processChunkR cfg st c.Content = (a, b, d2) :=
        ⟨_, _, _, rfl⟩
      obtain ⟨routs, rres, hrec⟩ : ∃ a b, consumeChunks cfg st3 cs = (a, b) := ⟨_, _, rfl⟩
      cases pok with
      | false => simp [consumeChunks, hce, hpc] at h
      | true =>
        simp only [consumeChunks, hce, hpc, hrec, List.cons_append, List.append_eq,
          if_true] at h ⊢
        cases rres with
        | error f => simp at h
        | ok st4 =>
          simp only [Prod.mk.injEq, Except.ok.injEq] at h
          obtain ⟨h1, h2⟩ := h
          cases h2
          rw [ih st3 routs st2 hrec]
          simp [← h1, List.append_assoc]

/-- The chunks a single line makes the decoder emit never carry the
cancellation cause (they are content chunks or JSON-decode error chunks). -/
theorem processLine_no_cancel (st : ChatResponse) (l : Str) :
    ((processLine st l).2).filter isCancelChunk = [] := by
  unfold processLine emitFor
  repeat' split
  all_goals simp [isCancelChunk]

/-- Nothing the decoder emits while scanning lines carries the cancellation
cause. -/
theorem processLines_no_cancel (ls : List Str) :
    ∀ st, ((processLines st ls).filter isCancelChunk) = [] := by
  induction ls with
  | nil => intro st; rfl
  | cons l ls ih =>
    intro st
    simp only [processLines]
    rw [List.filter_append, processLine_no_cancel, ih]
    rfl

/-- A Chunk sequence ending in an error Chunk never reaches queue closure:
consumption terminates with a failure. -/
theorem consume_ends_error (cfg : Cfg) (c : Chunk) (e : GoError) (hc : c.Error = some e)
    (pre : List Chunk) : ∀ st, ∃ outs f,
      consumeChunks cfg st (pre ++ [c]) = (outs, Except.error f) := by
  induction pre with
  | nil =>
    intro st
    refine ⟨[], Failure.streamError e, ?_⟩
    simp [consumeChunks, hc]
  | cons d ds ih =>
    intro st
    cases hd : d.Error with
    | some e2 => exact ⟨[], Failure.streamError e2, by simp [consumeChunks, hd]⟩
    | none =>
      obtain ⟨st2, pouts, pok, hpc⟩ : ∃ a b d2, processChunkR cfg st d.Content = (a, b, d2) :=
        ⟨_, _, _, rfl⟩
      cases pok with
      | false => exact ⟨pouts, Failure.processError, by simp [consumeChunks, hd, hpc]⟩
      | true =>
        obtain ⟨outs, f, hrec⟩ := ih st2
        exact ⟨pouts ++ outs, f, by simp [consumeChunks, hd, hpc, hrec]⟩

/-- Under a plain configuration or a total markdown capability,
`renderContent` always succeeds. -/
theorem renderContent_ok (cfg : Cfg)
    (hmd : cfg.plainText = true ∨ ∀ x, ∃ y, cfg.md x = Except.ok y) (content : Str) :
    ∃ outs, renderContent cfg content = (outs, true) := by
  by_cases hp : cfg.plainText
  · exact ⟨[Out.print content], by simp [renderContent, hp]⟩
  · cases hmd with
    | inl h => exact absurd h hp
    | inr h =>
      obtain ⟨y, hy⟩ := h (trimSpace content)
      refine ⟨(if strStarts (trimSpace content) (strOf "#") then [Out.println []] else []) ++
        [Out.println (trimSpace y)], ?_⟩
      simp [renderContent, hp, hy]

/-- Under a plain configuration or a total markdown capability,
`processChunk` always succeeds, flushing a prefix of the grown buffer. -/
theorem processChunkR_ok (cfg : Cfg)
    (hmd : cfg.plainText = true ∨ ∀ x, ∃ y, cfg.md x = Except.ok y)
    (st : RendererState) (content : Str) :
    ∃ st2 outs, processChunkR cfg st content = (st2, outs, true) := by
  by_cases hidx : findMarkdownBreakPoint (st.buffer ++ content) > -1
  · obtain ⟨outs, houts⟩ := renderContent_ok cfg hmd
      ((st.buffer ++ content).take (findMarkdownBreakPoint (st.buffer ++ content)).toNat)
    refine ⟨{ buffer := List.drop (findMarkdownBreakPoint (st.buffer ++ content)).toNat (st.buffer ++ content) }, outs, ?_⟩
    simp [processChunkR, hidx, houts]
  · refine ⟨{ buffer := st.buffer ++ content }, [], ?_⟩
    simp [processChunkR, hidx]

/-- Under a plain configuration or a total markdown capability, an
error-free Chunk sequence is consumed to queue closure without failure. -/
theorem consume_no_error (cfg : Cfg)
    (hmd : cfg.plainText = true ∨ ∀ x, ∃ y, cfg.md x = Except.ok y)
    (chunks : List Chunk) (herr : errorFree chunks = true) :
    ∀ st, ∃ outs st2, consumeChunks cfg st chunks = (outs, Except.ok st2) := by
  induction chunks with
  | nil => intro st; exact ⟨[], st, rfl⟩
  | cons c cs ih =>
    intro st
    simp only [errorFree, List.all_cons, Bool.and_eq_true] at herr
    have hce : c.Error = none := by
      have := herr.1
      exact eq_of_beq this
    have hrest : errorFree cs = true := herr.2
    obtain ⟨st2, pouts, hpc⟩ := processChunkR_ok cfg hmd st c.Content
    obtain ⟨outs, st3, hrec⟩ := (by
      have := ih hrest
      exact this st2)
    refine ⟨pouts ++ outs, st3, ?_⟩
    simp [consumeChunks, hce, hpc, hrec]

/-- Plain-mode consumption invariant: printed segments plus what stays in the
buffer account exactly for the old buffer plus every consumed content
string. -/
theorem consume_plain_inv (md2 : Str → Except Unit Str) (cs : List Str) :
    ∀ st : RendererState, ∃ outs st2,
      consumeChunks (Cfg.mk true md2) st (cs.map (fun t => { Content := t })) =
        (outs, Except.ok st2) ∧
      (printedSegs outs).flatten ++ st2.buffer = st.buffer ++ cs.flatten ∧
      (∀ o ∈ outs, ∃ t, o = Out.print t) := by
  induction cs with
  | nil =>
    intro st
    exact ⟨[], st, rfl, by simp [printedSegs], by simp⟩
  | cons c cs ih =>
    intro st
    by_cases hidx : findMarkdownBreakPoint (st.buffer ++ c) > -1
    · obtain ⟨outs, st2, hrec, hinv, honly⟩ :=
        ih { buffer := (st.buffer ++ c).drop (findMarkdownBreakPoint (st.buffer ++ c)).toNat }
      refine ⟨Out.print ((st.buffer ++ c).take (findMarkdownBreakPoint (st.buffer ++ c)).toNat)
        :: outs, st2, ?_, ?_, ?_⟩
      · simp [consumeChunks, processChunkR, hidx, renderContent, hrec]
      · simp only [printedSegs, List.flatten_cons] at hinv ⊢
        rw [List.append_assoc, hinv, ← List.append_assoc, List.take_append_drop,
          List.append_assoc]
      · intro o ho
        cases ho with
        | head => exact ⟨_, rfl⟩
        | tail _ h => exact honly o h
    · obtain ⟨outs, st2, hrec, hinv, honly⟩ := ih { buffer := st.buffer ++ c }
      refine ⟨outs, st2, ?_, ?_, honly⟩
      · simp [consumeChunks, processChunkR, hidx, hrec]
      · simp only at hinv
        rw [hinv]
        simp

/-- No event in a send-only trace is the close event. -/
theorem count_close_map_send (cs : List Chunk) :
    ((cs.map QEvent.send).count QEvent.close) = 0 := by
  induction cs with
  | nil => rfl
  | cons c cs ih => simp [List.count_cons, ih]

/-- Decoding a JSON object with no `choices` member into the reused
`ChatResponse` leaves it unchanged and succeeds. -/
theorem decode_obj_no_choices (fs : List (Str × Json))
    (h : ∀ kv ∈ fs, ¬ foldKey kv.1 = strOf "choices") (st : ChatResponse) :
    decodeChatResponse st (Json.object fs) = (st, true) := by
  show List.foldl _ (st, true) fs = (st, true)
  induction fs with
  | nil => rfl
  | cons kv fs ih =>
    have hkv : ¬ foldKey kv.1 = strOf "choices" := h kv (by simp)
    simp only [List.foldl_cons, if_neg hkv]
    exact ih (fun kv2 hkv2 => h kv2 (by simp [hkv2]))

/-! ## Claim C1 (corrected)

The spec claims a frame whose payload is not parsable as JSON is skipped
silently (no Chunk, no error) and that for a malformed frame between two
valid frames both contents are delivered and no error surfaces. The code at
`Parser.Process` sends `Chunk{Error: err}` for the unparsable frame, and
`TerminalRenderer.Render` terminates with `stream error: ...` on the first
error Chunk, so an error does surface and content after (and buffered
content before) the malformed frame is not printed. -/

/-- C1 counterexample: with a malformed frame between two valid frames, the
decoder emits an error Chunk for the malformed frame, and the plain-mode
pipeline terminates with a stream error having printed nothing — neither
valid frame's content is delivered and an error surfaces. -/
theorem c1_counterexample :
    decoderChunks [frameA, frameBad, frameB] ExitMode.eof =
      [{ Content := strOf "A" }, { Error := some GoError.jsonErr }, { Content := strOf "B" }] ∧
    renderFull plainCfg (decoderChunks [frameA, frameBad, frameB] ExitMode.eof) =
      ([], some (Failure.streamError GoError.jsonErr)) := by
  constructor
  · rfl
  · rfl

/-- C1 amended: an unparsable frame makes the decoder emit exactly one error
Chunk (leaving its decode state unchanged, then continuing with the next
frame), and the renderer, on reaching the first error Chunk, terminates
with that stream error, printing nothing beyond what the Chunks before it
produced. -/
theorem c1_theorem (st : ChatResponse) (line : Str) (cfg : Cfg) (e : GoError)
    (pre post : List Chunk) (outs : List Out) (rst : RendererState)
    (h1 : ¬ line = []) (h2 : ¬ line = dataDoneStr)
    (h3 : parseJson (trimData line) = none)
    (h4 : consumeChunks cfg rInit pre = (outs, Except.ok rst)) :
    processLine st line = (st, [{ Error := some GoError.jsonErr }]) ∧
    renderFull cfg (pre ++ { Error := some e } :: post) =
      (outs, some (Failure.streamError e)) := by
  constructor
  · unfold processLine
    rw [if_neg (not_or.mpr ⟨h1, h2⟩), h3]
  · have happ := consume_append cfg ({ Error := some e } :: post) pre rInit outs rst h4
    have hid : consumeChunks cfg rst ({ Error := some e } :: post) =
        ([], Except.error (Failure.streamError e)) := by
      simp [consumeChunks]
    rw [hid] at happ
    unfold renderFull
    rw [happ]
    simp

/-- C1 amended, witnessed at the concrete malformed stream. -/
theorem c1_witness :
    processLine chatInit frameBad = (chatInit, [{ Error := some GoError.jsonErr }]) ∧
    renderFull plainCfg ([{ Content := strOf "A" }] ++
        { Error := some GoError.jsonErr } :: [{ Content := strOf "B" }]) =
      ([], some (Failure.streamError GoError.jsonErr)) :=
  c1_theorem chatInit frameBad plainCfg GoError.jsonErr
    [{ Content := strOf "A" }] [{ Content := strOf "B" }] [] { buffer := strOf "A" }
    (by decide) (by decide) rfl rfl

/-! ## Claim C3 (code bug)

The segmenter's heading rule computes `lastBreakPosition = position -
lineLength`, where `position` is the byte offset of the start of the
heading line itself, so the recorded boundary lies `len(headingLine) + 1`
bytes before the heading — a position that can fall strictly inside an
earlier, fully scanned code fence, splitting the fence across two
segments. -/

/-- C3 failing input: on the buffer with a complete three-line code fence
followed by a heading line, the returned break position 5 lies strictly
inside the fence (which spans offsets 0 to 10), and flushing at it splits
the fence across two segments. -/
theorem c3_theorem :
    findMarkdownBreakPoint (strOf "```\nx\n```\n# Hi") = 5 ∧
    processChunkR plainCfg rInit (strOf "```\nx\n```\n# Hi") =
      ({ buffer := strOf "\n```\n# Hi" }, [Out.print (strOf "```\nx")], true) := by
  constructor
  · rfl
  · rfl

/-! ## Claim C4 (code bug)

The spec says a heading line (not the very first line, no block open) yields
a candidate boundary at the heading line's start offset. The code instead
records `position - lineLength`, i.e. the start offset minus the heading
line's own length plus one. -/

/-- C4 failing input: in `Hello\n# Hi` the heading line starts at offset 6,
but the code records the boundary at 1 (6 minus the heading line's length 4
minus 1), cutting mid-word inside `Hello`; a heading on the very first line
records no boundary. -/
theorem c4_theorem :
    findMarkdownBreakPoint (strOf "Hello\n# Hi") = 1 ∧
    findMarkdownBreakPoint (strOf "# Hi") = -1 := by
  constructor
  · rfl
  · rfl

/-! ## Claim C5 (code bug)

The function returns the last candidate assigned in scan order, and the
spec identifies that with the maximal candidate position. Because the
heading rule records a mis-offset position (see C4), a later-scanned
heading candidate can be smaller than an earlier candidate — here it is
even negative, so the function returns -2 although a boundary at 2 was
recorded, and flushing is disabled entirely. -/

/-- C5 failing input: on `a\n\nb` the blank line yields candidate 2 and the
function returns 2; appending the heading line `# cdef` makes the last
candidate 5 - 7 = -2, which is returned despite the earlier, larger
candidate 2 — the returned position is not the maximal candidate. -/
theorem c5_theorem :
    findMarkdownBreakPoint (strOf "a\n\nb") = 2 ∧
    findMarkdownBreakPoint (strOf "a\n\nb\n# cdef") = -2 := by
  constructor
  · rfl
  · rfl

/-! ## Claim C7 (corrected)

`Parser.Process` declares `var chunk ChatResponse` once, outside the loop,
and `json.Unmarshal` leaves fields whose keys are absent untouched. A frame
that parses as a JSON object without a `choices` member therefore re-uses
the previous frame's decoded choices, and re-emits the previously selected
content — emission is not a function of the frame text alone. -/

/-- C7 counterexample: the frame `data: \x7b\x7d` (valid JSON, no choices
entry) emits a Chunk repeating `A` when it follows `frameA`, but emits
nothing when it is the only frame — the same frame text emits different
Chunks after different earlier frames. -/
theorem c7_counterexample :
    processLines chatInit [frameA, frameEmptyObj] =
      [{ Content := strOf "A" }, { Content := strOf "A" }] ∧
    processLines chatInit [frameEmptyObj] = [] := by
  constructor
  · rfl
  · rfl

/-- C7 amended: for a frame parsing as a JSON object with no `choices`
member, the decode target is left unchanged and the emission for that frame
is exactly the emission the loop body performs for the *previous* state's
choices — in particular it emits nothing only when the previous state's
choices are empty or select empty content. -/
theorem c7_theorem (st : ChatResponse) (line : Str) (fs : List (Str × Json))
    (h1 : ¬ line = []) (h2 : ¬ line = dataDoneStr)
    (h3 : parseJson (trimData line) = some (Json.object fs))
    (h4 : ∀ kv ∈ fs, ¬ foldKey kv.1 = strOf "choices") :
    processLine st line = (st, emitFor st.choices) := by
  unfold processLine
  rw [if_neg (not_or.mpr ⟨h1, h2⟩), h3]
  simp [decode_obj_no_choices fs h4 st]

/-- C7 amended, witnessed: after a state holding choice `A`, the no-choices
frame re-emits `A`. -/
theorem c7_witness :
    processLine (ChatResponse.mk [{ deltaContent := strOf "A" }]) frameEmptyObj =
      (ChatResponse.mk [{ deltaContent := strOf "A" }],
        emitFor (ChatResponse.mk [{ deltaContent := strOf "A" }]).choices) :=
  c7_theorem (ChatResponse.mk [{ deltaContent := strOf "A" }]) frameEmptyObj []
    (by decide) (by decide) rfl (by simp)

/-! ## Claim C10 (confirmed)

`Parser.Process` closes the handoff channel in a `defer close(p.chunks)`
registered before the loop, so the channel is closed exactly once, as the
final queue event, on each of the three exit paths (end of stream, fatal
read error, observed cancellation); no other embedded component performs a
close (the renderer only receives). -/

/-- C10: on every line stream and every exit mode, the decoder's queue
trace contains exactly one close event and it is the last event. -/
theorem c10_theorem (lines : List Str) (m : ExitMode) :
    (decoderTrace lines m).count QEvent.close = 1 ∧
    (decoderTrace lines m).getLast? = some QEvent.close := by
  constructor
  · unfold decoderTrace
    rw [List.count_append, count_close_map_send]
    rfl
  · exact List.getLast?_concat _

/-! ## Claim C2 (confirmed)

In plain mode every flushed segment is printed verbatim, segments are
prefixes removed from the buffer, and queue closure force-flushes the
remainder, so the concatenation of all printed segments is exactly the
concatenation of the Chunk contents. -/

/-- C2: feeding any finite sequence of content Chunks to the plain-mode
renderer and closing the queue prints segments whose concatenation equals
the concatenation of the Chunk contents, and the run reports success. -/
theorem c2_theorem (md2 : Str → Except Unit Str) (contents : List Str) :
    ∃ outs,
      renderFull (Cfg.mk true md2) (contents.map (fun t => { Content := t })) = (outs, none) ∧
      (printedSegs outs).flatten = contents.flatten := by
  obtain ⟨outs, st2, hcons, hinv, honly⟩ := consume_plain_inv md2 contents rInit
  have hinv2 : (printedSegs outs).flatten ++ st2.buffer = contents.flatten := by
    simpa [rInit] using hinv
  by_cases hb : st2.buffer = []
  · refine ⟨outs ++ [Out.println []], ?_, ?_⟩
    · unfold renderFull
      rw [hcons]
      simp [renderRemaining, hb]
    · rw [printedSegs_append]
      have : (printedSegs [Out.println []]) = [] := rfl
      rw [this, List.append_nil]
      rw [hb, List.append_nil] at hinv2
      exact hinv2
  · refine ⟨outs ++ [Out.print st2.buffer, Out.println []], ?_, ?_⟩
    · unfold renderFull
      rw [hcons]
      simp [renderRemaining, hb, renderContent]
    · rw [printedSegs_append]
      have : (printedSegs [Out.print st2.buffer, Out.println []]) = [st2.buffer] := rfl
      rw [this, List.flatten_append]
      simpa using hinv2

/-! ## Claim C6 (confirmed)

Per-line decoder behaviour from the initial decode state: the empty line
and the `data: [DONE]` sentinel produce no Chunk; a line whose stripped
payload parses and decodes to a response with at least one choice makes the
decoder select that choice's delta content, falling back to the message
content when the delta is empty, and emit exactly one content Chunk iff the
selected string is non-empty. (Dependence of later frames on the reused
decode state is claim C7's subject.) -/

/-- C6: emptiness/sentinel consumption and the content-selection rule for a
frame decoded from the initial state. -/
theorem c6_theorem (line : Str) (j : Json) (resp : ChatResponse) (c : Choice)
    (rest : List Choice)
    (h1 : ¬ line = []) (h2 : ¬ line = dataDoneStr)
    (h3 : parseJson (trimData line) = some j)
    (h4 : decodeChatResponse chatInit j = (resp, true))
    (h5 : resp.choices = c :: rest) :
    processLine chatInit [] = (chatInit, []) ∧
    processLine chatInit dataDoneStr = (chatInit, []) ∧
    (processLine chatInit line).2 =
      (if (if c.deltaContent = [] then c.messageContent else c.deltaContent) = [] then []
       else [{ Content := if c.deltaContent = [] then c.messageContent else c.deltaContent }]) := by
  refine ⟨rfl, rfl, ?_⟩
  unfold processLine
  rw [if_neg (not_or.mpr ⟨h1, h2⟩), h3]
  simp [h4, emitFor, h5]

/-- C6 witnessed at the concrete frame carrying delta content `hi`. -/
theorem c6_witness :
    processLine chatInit [] = (chatInit, []) ∧
    processLine chatInit dataDoneStr = (chatInit, []) ∧
    (processLine chatInit frameHi).2 =
      (if (if (strOf "hi" : Str) = [] then ([] : Str) else strOf "hi") = [] then []
       else [{ Content := if (strOf "hi" : Str) = [] then ([] : Str) else strOf "hi" }]) :=
  c6_theorem frameHi jsonHi (ChatResponse.mk [{ deltaContent := strOf "hi" }])
    { deltaContent := strOf "hi" } [] (by decide) (by decide) rfl rfl rfl

/-! ## Claim C8 (confirmed)

Cancellation is modelled by the point `k` at which the decoder's `select`
observes `ctx.Done()` (before scanning line `k`), and by the point `j` at
which the renderer's `select` observes it. The decoder emits the Chunks of
the lines scanned so far, then exactly one error Chunk carrying the
cancellation cause, and stops; a renderer that observes the signal reports
the cancellation error having emitted only the output of the already
consumed Chunks; a renderer that instead reaches the cancellation error
Chunk also terminates with an error, never success. -/

/-- C8: decoder emission shape under observed cancellation, and the two ways
the renderer can observe it. -/
theorem c8_theorem (cfg : Cfg) (lines : List Str) (k j : Nat) (outs : List Out)
    (st : RendererState)
    (houts : consumeChunks cfg rInit ((decoderChunks lines (ExitMode.canceled k)).take j) =
      (outs, Except.ok st)) :
    (decoderChunks lines (ExitMode.canceled k)).getLast? =
      some { Error := some GoError.canceled } ∧
    ((decoderChunks lines (ExitMode.canceled k)).dropLast).filter isCancelChunk = [] ∧
    renderOnCancel cfg (decoderChunks lines (ExitMode.canceled k)) j =
      (outs, some (Failure.ctxError GoError.canceled)) ∧
    ¬ (renderFull cfg (decoderChunks lines (ExitMode.canceled k))).2 = none := by
  refine ⟨?_, ?_, ?_, ?_⟩
  · exact List.getLast?_concat _
  · show ((processLines chatInit (lines.take k) ++
        [({ Error := some GoError.canceled } : Chunk)]).dropLast).filter isCancelChunk = []
    rw [List.dropLast_concat]
    exact processLines_no_cancel (lines.take k) chatInit
  · unfold renderOnCancel
    rw [houts]
  · obtain ⟨eouts, f, hc⟩ := consume_ends_error cfg ({ Error := some GoError.canceled } : Chunk)
      GoError.canceled rfl (processLines chatInit (lines.take k)) rInit
    have hfull : renderFull cfg (decoderChunks lines (ExitMode.canceled k)) = (eouts, some f) := by
      have hd : decoderChunks lines (ExitMode.canceled k) =
          processLines chatInit (lines.take k) ++ [({ Error := some GoError.canceled } : Chunk)] :=
        rfl
      unfold renderFull
      rw [hd, hc]
    rw [hfull]
    simp

/-- C8 witnessed at a one-frame stream cancelled after the frame, with the
renderer observing the signal after consuming that frame's Chunk. -/
theorem c8_witness :
    (decoderChunks [frameA] (ExitMode.canceled 1)).getLast? =
      some { Error := some GoError.canceled } ∧
    ((decoderChunks [frameA] (ExitMode.canceled 1)).dropLast).filter isCancelChunk = [] ∧
    renderOnCancel plainCfg (decoderChunks [frameA] (ExitMode.canceled 1)) 1 =
      ([], some (Failure.ctxError GoError.canceled)) ∧
    ¬ (renderFull plainCfg (decoderChunks [frameA] (ExitMode.canceled 1))).2 = none :=
  c8_theorem plainCfg [frameA] 1 1 [] { buffer := strOf "A" } rfl

/-! ## Claim C9 (confirmed)

When the queue closes without a prior error Chunk (and the external styled
capability, when used, does not itself fail — its failures are a separate,
fatal error kind in the spec), the renderer flushes the remaining buffer
exactly once, prints exactly one trailing blank line as the final output,
and reports success. -/

/-- C9: on queue closure of an error-free Chunk sequence, the output is the
consumed output, followed by the single flush of the remaining buffer,
followed by exactly one trailing blank line, and the result is success. -/
theorem c9_theorem (cfg : Cfg) (chunks : List Chunk)
    (herr : errorFree chunks = true)
    (hmd : cfg.plainText = true ∨ ∀ x, ∃ y, cfg.md x = Except.ok y) :
    ∃ outs st, consumeChunks cfg rInit chunks = (outs, Except.ok st) ∧
      renderFull cfg chunks =
        (outs ++ flushRemaining cfg st.buffer ++ [Out.println []], none) := by
  obtain ⟨outs, st, hcons⟩ := consume_no_error cfg hmd chunks herr rInit
  refine ⟨outs, st, hcons, ?_⟩
  unfold renderFull
  rw [hcons]
  by_cases hb : st.buffer = []
  · simp [renderRemaining, flushRemaining, hb]
  · obtain ⟨fouts, hf⟩ := renderContent_ok cfg hmd st.buffer
    simp [renderRemaining, flushRemaining, hb, hf]

/-- C9 witnessed at a single content Chunk in plain mode. -/
theorem c9_witness :
    ∃ outs st, consumeChunks plainCfg rInit [{ Content := strOf "hi" }] =
        (outs, Except.ok st) ∧
      renderFull plainCfg [{ Content := strOf "hi" }] =
        (outs ++ flushRemaining plainCfg st.buffer ++ [Out.println []], none) :=
  c9_theorem plainCfg [{ Content := strOf "hi" }] rfl (Or.inl rfl)

end GhCopilot
